import Mathlib

/-!
Verification of the gcr-cleaner cleaning engine against its specification.

The definitions below are a shallow embedding of the Go source:

* `TagFilter`, `TagFilter.Matches`, `BuildTagFilter` embed
  `pkg/gcrcleaner/filter.go`.  A compiled regular expression is modelled as
  its matching predicate `String → Bool`; the possibly-nil `re` pointer of
  the Go structs is an `Option`, and `regexp.Compile` is an explicit
  parameter `compile : String → Except String (String → Bool)` since the
  regex engine is external to the repository.
* `Manifest`, `dockerExistence`, `shouldDelete`, `manifestLess`,
  `selectManifests`, `digestTaskResult`, `runDigestPass`, `runRetryLoop`,
  `runDigestPhase`, `gatherResults`, `sortStrings` embed the
  `worker.New`-based `Cleaner.Clean` of `pkg/gcrcleaner/cleaner.go`.
  Times (`time.Time`) are instants modelled as integers (nanoseconds since
  the Unix epoch); `t.UTC()` does not change the instant, and
  `After`/`Before`/`Equal` are `>`/`<`/`=` on instants.  The outcome of a
  transport delete for a digest at a given retry pass is supplied by an
  oracle `String → Nat → DelOutcome`.
* `OldState`, `oldDigestTask`, `runOldDigestPhase` embed the digest-deletion
  task of the older `workerpool`-based `Cleaner.Clean` variant in
  `pkg/gcrcleaner/cleaner.go` (the variant whose task body begins with the
  shared-error-map check).  Task executions are modelled as an atomic
  sequence; the `Bool` component records whether the task issued a
  transport delete call.
* `WorkerPool`, `materializeResults`, `doOp`, `waitOp`, `doneOp` embed
  `internal/worker/worker.go`.  The completion interleaving of the
  goroutines is abstracted as an arbitrary permutation of the indexed
  results; `materializeResults` is the dense-vector materialization done by
  `Worker.Done`.
* `PubSubMessage`, `pubSubHandler` embed `Server.PubSubHandler` of
  `pkg/gcrcleaner/server.go` together with the membership behaviour of
  `timerCache.Insert` of `pkg/gcrcleaner/cache.go`; the cache is the set of
  currently stored keys (expiry timers are outside the model, so the second
  delivery is one arriving within the cache lifetime).
-/

namespace GcrCleaner

/-- Regex matcher: the behaviour of a compiled `*regexp.Regexp` is its
`MatchString` predicate. -/
abbrev Regex := String → Bool

/-- Tag filters of `filter.go`.  Each regex-bearing variant stores the `re`
field, which in Go is a pointer and may be nil. -/
inductive TagFilter where
  | TagFilterNull : TagFilter
  | TagFilterFirst (re : Option Regex) : TagFilter
  | TagFilterAny (re : Option Regex) : TagFilter
  | TagFilterAll (re : Option Regex) : TagFilter

/-- The `Matches` methods of the four filter structs in `filter.go`.
The `Any` loop returns true on the first tag matching `re`; the `All` loop
returns false on the first tag not matching `re`; both guard on `re == nil`
first. `First` tests the head of the list if the list is non-empty. -/
def TagFilter.Matches : TagFilter → List String → Bool
  | .TagFilterNull, _ => false
  | .TagFilterFirst re, tags =>
    match re with
    | none => false
    | some r =>
      match tags with
      | [] => false
      | t :: _ => r t
  | .TagFilterAny re, tags =>
    match re with
    | none => false
    | some r => tags.any r
  | .TagFilterAll re, tags =>
    match re with
    | none => false
    | some r => tags.all r

/-- The constructor `BuildTagFilter(first, any, all)` of `filter.go`:
rejects any two non-empty patterns, compiles the single non-empty pattern
into its variant, and yields the Null filter when all are empty.
`compile` stands for `regexp.Compile`. -/
def BuildTagFilter (compile : String → Except String Regex)
    (first anyP allP : String) : Except String TagFilter :=
  if (first ≠ "" ∧ anyP ≠ "") ∨ (first ≠ "" ∧ allP ≠ "") ∨ (anyP ≠ "" ∧ allP ≠ "") then
    .error "only one tag filter type may be specified"
  else if first ≠ "" then
    match compile first with
    | .error e => .error ("failed to compile tag_filter regular expression: " ++ e)
    | .ok re => .ok (.TagFilterFirst (some re))
  else if anyP ≠ "" then
    match compile anyP with
    | .error e => .error ("failed to compile tag_filter_any regular expression: " ++ e)
    | .ok re => .ok (.TagFilterAny (some re))
  else if allP ≠ "" then
    match compile allP with
    | .error e => .error ("failed to compile tag_filter_all regular expression: " ++ e)
    | .ok re => .ok (.TagFilterAll (some re))
  else
    .ok .TagFilterNull

/-- Registry metadata of one manifest (`gcrgoogle.ManifestInfo`): tag list,
creation instant and upload instant, in nanoseconds since the epoch. -/
structure ManifestInfo where
  Tags : List String
  Created : Int
  Uploaded : Int
deriving DecidableEq

/-- The `manifest` record of `cleaner.go`. -/
structure Manifest where
  Repo : String
  Digest : String
  Info : ManifestInfo
deriving DecidableEq

/-- `dockerExistence` of `cleaner.go`: 2013-03-20 00:00:00 UTC, in
nanoseconds since the epoch (1363737600 s). -/
def dockerExistence : Int := 1363737600000000000

/-- `Cleaner.shouldDelete` of the `worker`-based `Clean`: too-new manifests
are excluded, untagged manifests are deleted, otherwise the tag filter
decides. -/
def shouldDelete (m : Manifest) (since : Int) (tagFilter : TagFilter) : Bool :=
  if m.Info.Uploaded > since then
    false
  else if m.Info.Tags.length = 0 then
    true
  else if tagFilter.Matches m.Info.Tags then
    true
  else
    false

/-- Modelled from the spec (§4.4): the four-step retention decision order
stated in the specification, used to compare against `shouldDelete`. -/
def shouldDeleteSpec (m : Manifest) (since : Int) (tagFilter : TagFilter) : Bool :=
  if m.Info.Uploaded > since then false
  else if m.Info.Tags = [] then true
  else if tagFilter.Matches m.Info.Tags then true
  else false

/-- The `sort.Slice` comparator of `Clean` (with `i := a`, `j := b`): when
either creation time predates Docker's existence or the creation times are
equal, compare upload times (newer first); otherwise compare creation times
(newer first). -/
def manifestLess (a b : Manifest) : Bool :=
  if b.Info.Created < dockerExistence ∨ a.Info.Created < dockerExistence
      ∨ b.Info.Created = a.Info.Created then
    decide (b.Info.Uploaded < a.Info.Uploaded)
  else
    decide (b.Info.Created < a.Info.Created)

/-- Modelled from the spec (C3's wording): `a` precedes `b` iff either some
creation time is prehistoric or they are equal and `a` was uploaded later,
or both creation times are modern and distinct and `a` was created later. -/
def manifestLessSpec (a b : Manifest) : Prop :=
  ((a.Info.Created < dockerExistence ∨ b.Info.Created < dockerExistence
      ∨ a.Info.Created = b.Info.Created) ∧ a.Info.Uploaded > b.Info.Uploaded)
  ∨ (¬ a.Info.Created < dockerExistence ∧ ¬ b.Info.Created < dockerExistence
      ∧ a.Info.Created ≠ b.Info.Created ∧ a.Info.Created > b.Info.Created)

/-- Accumulator of the selection loop of `Clean`.  `keepCount` and
`digestsToDelete` are the variables of the source; `kept` and
`tagsToDelete` record which manifests took the keep branch and which tag
deletions were enqueued, in loop order (ghost instrumentation of the two
branches). -/
structure SelectState where
  keepCount : Int
  digestsToDelete : List String
  kept : List Manifest
  tagsToDelete : List String
deriving DecidableEq

/-- One iteration of the selection loop of `Clean`: skip non-candidates,
protect candidates while `keepCount < keep`, otherwise schedule the digest
and enqueue all of the manifest's tag deletions. -/
def selectStep (since : Int) (keep : Int) (tagFilter : TagFilter)
    (s : SelectState) (m : Manifest) : SelectState :=
  if ¬ shouldDelete m since tagFilter then
    s
  else if s.keepCount < keep then
    { s with keepCount := s.keepCount + 1, kept := s.kept ++ [m] }
  else
    { s with
        digestsToDelete := s.digestsToDelete ++ [m.Digest],
        tagsToDelete := s.tagsToDelete ++ m.Info.Tags }

/-- The whole selection loop of `Clean` over the sorted manifest list. -/
def selectManifests (manifests : List Manifest) (since : Int) (keep : Int)
    (tagFilter : TagFilter) : SelectState :=
  manifests.foldl (selectStep since keep tagFilter) ⟨0, [], [], []⟩

/-- Outcome of one transport digest-delete call (`Cleaner.deleteOne`):
success, the `GOOGLE_MANIFEST_DANGLING_PARENT_IMAGE` marker, or another
error message. -/
inductive DelOutcome where
  | ok : DelOutcome
  | dangling : DelOutcome
  | fail (msg : String) : DelOutcome
deriving DecidableEq

/-- A worker result as consumed by `Clean`: the returned identifier and the
returned error (`worker.Result[string]`). -/
structure WResult where
  value : String
  error : Option String
deriving DecidableEq

/-- Result of one digest-deletion task of the `worker`-based `Clean`: in dry
run the transport is skipped and the identifier reported; a dangling-parent
marker yields `("", nil)` (the digest goes on the retry list instead);
any other failure yields the wrapped terminal error. -/
def digestTaskResult (dryRun : Bool) (oc : DelOutcome) (digest : String) : WResult :=
  if dryRun then
    ⟨digest, none⟩
  else
    match oc with
    | .ok => ⟨digest, none⟩
    | .dangling => ⟨"", none⟩
    | .fail e => ⟨"", some ("failed to delete digest " ++ digest ++ ": " ++ e)⟩

/-- Trace entry of one digest-deletion task: which digest, at which pass
(0 = initial pass, 1-3 = retry passes), and whether the task issued a
transport delete call.  In the `worker`-based `Clean` a digest task issues
the transport call exactly when not in dry run: its body has no
cross-task error guard. -/
structure Attempt where
  digest : String
  pass : Nat
  issued : Bool
deriving DecidableEq

/-- One enqueue-and-wait pass of digest deletions in `Clean`: the worker
results of the pass, the retry list collected from dangling-parent markers
(rebuilt from scratch, as `toRetry`/`toRetryCopy` in the source), and the
trace of attempts. -/
def runDigestPass (dryRun : Bool) (oracle : String → Nat → DelOutcome)
    (pass : Nat) (digests : List String) :
    List WResult × List String × List Attempt :=
  (digests.map (fun d => digestTaskResult dryRun (oracle d pass) d),
   if dryRun then [] else digests.filter (fun d => oracle d pass = DelOutcome.dangling),
   digests.map (fun d => ⟨d, pass, !dryRun⟩))

/-- The retry loop of `Clean` (`for i := 0; i < 3; i++`): while fuel remains
and the retry list is non-empty, run a pass over it and continue with the
rebuilt list. -/
def runRetryLoop (dryRun : Bool) (oracle : String → Nat → DelOutcome) :
    Nat → Nat → List String → List WResult × List String × List Attempt
  | 0, _, toRetry => ([], toRetry, [])
  | fuel + 1, pass, toRetry =>
    if toRetry.isEmpty then
      ([], toRetry, [])
    else
      let p := runDigestPass dryRun oracle pass toRetry
      let rest := runRetryLoop dryRun oracle fuel (pass + 1) p.2.1
      (p.1 ++ rest.1, rest.2.1, p.2.2 ++ rest.2.2)

/-- Aggregate view of the digest-deletion phase of `Clean`. -/
structure DigestPhase where
  results : List WResult
  remaining : List String
  trace : List Attempt
deriving DecidableEq

/-- The digest-deletion phase of `Clean`: the initial pass over
`digestsToDelete` followed by up to 3 retry passes over the dangling
digests.  `remaining` is the retry list left over after the loop, which the
source never looks at again. -/
def runDigestPhase (dryRun : Bool) (oracle : String → Nat → DelOutcome)
    (digests : List String) : DigestPhase :=
  let p0 := runDigestPass dryRun oracle 0 digests
  let rest := runRetryLoop dryRun oracle 3 1 p0.2.1
  ⟨p0.1 ++ rest.1, rest.2.1, p0.2.2 ++ rest.2.2⟩

/-- The result-gathering loop of `Clean`: walk the worker results, routing
errors into `errs` and non-empty values into `deleted`. -/
def gatherResults (results : List WResult) : List String × List String :=
  results.foldl
    (fun acc r =>
      match r.error with
      | some e => (acc.1, acc.2 ++ [e])
      | none => if r.value ≠ "" then (acc.1 ++ [r.value], acc.2) else acc)
    ([], [])

/-- Go's `sort.Strings`, which orders strings by byte-wise lexicographic
comparison; on UTF-8 data this coincides with the codepoint-lexicographic
order on the character lists. -/
def sortStrings (l : List String) : List String :=
  l.mergeSort (fun a b => a.data ≤ b.data)

/-- The deleted-identifier list returned by a successful dry-run `Clean` on
an already sorted manifest list: tag-deletion tasks are enqueued during
selection and each reports its tag (`tagged.Identifier()`), digest tasks
are enqueued afterwards and each reports its digest; worker results are in
enqueue order, and the gathered values are sorted before returning. -/
def cleanDeletedDryRun (manifests : List Manifest) (since : Int) (keep : Int)
    (tagFilter : TagFilter) : List String :=
  let s := selectManifests manifests since keep tagFilter
  let tagResults := s.tagsToDelete.map (fun t => WResult.mk t none)
  let ph := runDigestPhase true (fun _ _ => DelOutcome.ok) s.digestsToDelete
  sortStrings (gatherResults (tagResults ++ ph.results)).1

/-- Shared state of the digest-deletion tasks in the older
`workerpool`-based `Clean` variant: the cause-keyed error map (modelled as
the list of recorded causes) and the `deleted` accumulator. -/
structure OldState where
  errs : List String
  deleted : List String
deriving DecidableEq

/-- One digest-deletion task of the `workerpool`-based `Clean` variant, run
atomically.  The task first samples the shared error map and returns
without any transport call if it is non-empty; otherwise it issues the
delete (unless in dry run), records a new failure cause, and appends the
digest to `deleted` on success.  `outcome` is the failure cause of the
transport call, if any; the returned `Bool` is whether a transport delete
call was issued. -/
def oldDigestTask (dryRun : Bool) (digest : String) (outcome : Option String)
    (s : OldState) : OldState × Bool :=
  if s.errs ≠ [] then
    (s, false)
  else if dryRun then
    ({ s with deleted := s.deleted ++ [digest] }, false)
  else
    match outcome with
    | none => ({ s with deleted := s.deleted ++ [digest] }, true)
    | some cause =>
      if s.errs.contains cause then
        ({ s with deleted := s.deleted ++ [digest] }, true)
      else
        ({ s with errs := s.errs ++ [cause] }, true)

/-- A sequential run of the digest-deletion tasks of the `workerpool`-based
`Clean` variant, in the order the tasks start; records the per-task
transport flags. -/
def runOldDigestPhase (dryRun : Bool) (tasks : List (String × Option String))
    (s0 : OldState) : OldState × List Bool :=
  tasks.foldl
    (fun acc t =>
      ((oldDigestTask dryRun t.1 t.2 acc.1).1,
       acc.2 ++ [(oldDigestTask dryRun t.1 t.2 acc.1).2]))
    (s0, [])

/-- The sentinel errors of `internal/worker`: `ErrStopped`. -/
inductive PoolErr where
  | stopped : PoolErr
deriving DecidableEq

/-- State of a `Worker[T]`: the admission counter (the source initializes
`i` to `-1` and pre-increments atomically, so `i` here is the number of
accepted submissions and the next index to assign), the completion-ordered
indexed results, and the stopped flag. -/
structure WorkerPool (α : Type) where
  i : Nat
  results : List (Nat × α)
  stopped : Bool

/-- The dense-vector materialization of `Worker.Done`: allocate a vector of
the accumulated length and place every completion at its admission index. -/
def materializeResults {α : Type} (rs : List (Nat × α)) : List (Option α) :=
  rs.foldl (fun acc p => acc.set p.1 (some p.2)) (List.replicate rs.length none)

/-- `Worker.Do` restricted to its admission bookkeeping: refuse when
stopped, otherwise assign the next index. -/
def doOp {α : Type} (p : WorkerPool α) : Except PoolErr (WorkerPool α × Nat) :=
  if p.stopped then .error .stopped
  else .ok ({ p with i := p.i + 1 }, p.i)

/-- `Worker.Wait`: refuse when stopped, otherwise succeed once all queued
jobs have finished. -/
def waitOp {α : Type} (p : WorkerPool α) : Except PoolErr Unit :=
  if p.stopped then .error .stopped else .ok ()

/-- `Worker.Done`: the first call flips the stopped flag and materializes
the results in admission order; later calls fail with `ErrStopped`. -/
def doneOp {α : Type} (p : WorkerPool α) :
    Except PoolErr (WorkerPool α × List (Option α)) :=
  if p.stopped then .error .stopped
  else .ok ({ p with stopped := true }, materializeResults p.results)

/-- A decoded pubsub envelope (`pubsubMessage` of `server.go`); `data` is
the byte payload. -/
structure PubSubMessage where
  subscription : String
  messageId : String
  data : List Nat
deriving DecidableEq

/-- `Server.PubSubHandler` over a deduplication cache modelled as the set of
stored keys (the membership behaviour of `timerCache.Insert`, within the
cache lifetime).  Input `none` is a request whose envelope fails to decode.
Returns the HTTP status, the cache contents afterwards, and whether the
cleaner was invoked (the goroutine spawned). -/
def pubSubHandler (cache : List String) (req : Option PubSubMessage) :
    Nat × List String × Bool :=
  match req with
  | none => (400, cache, false)
  | some m =>
    let msgID := m.subscription ++ "/" ++ m.messageId
    if cache.contains msgID then
      (204, cache, false)
    else
      let cache' := cache ++ [msgID]
      if m.data.length = 0 then
        (400, cache', false)
      else
        (204, cache', true)

end GcrCleaner

namespace GcrCleaner

/-- C1: the retention decision `shouldDelete` follows exactly the four-step
order of the specification: a manifest uploaded after `since` is never
deleted regardless of tags and filter; otherwise an untagged manifest is
always deleted regardless of filter; otherwise the tag filter decides. -/
theorem shouldDelete_decision_order (m : Manifest) (since : Int) (f : TagFilter) :
    shouldDelete m since f = shouldDeleteSpec m since f
    ∧ (m.Info.Uploaded > since → shouldDelete m since f = false)
    ∧ (m.Info.Uploaded ≤ since → m.Info.Tags = [] → shouldDelete m since f = true)
    ∧ (m.Info.Uploaded ≤ since → m.Info.Tags ≠ [] →
        shouldDelete m since f = f.Matches m.Info.Tags) := by
  refine ⟨?_, ?_, ?_, ?_⟩
  · unfold shouldDelete shouldDeleteSpec
    rcases m with ⟨repo, digest, tags, created, uploaded⟩
    simp only [List.length_eq_zero]
  · intro h
    unfold shouldDelete
    simp [h]
  · intro h h2
    unfold shouldDelete
    simp [h2, not_lt_of_ge h]
  · intro h h2
    unfold shouldDelete
    have hnot : ¬ m.Info.Uploaded > since := not_lt_of_ge h
    have hlen : ¬ m.Info.Tags.length = 0 := by
      simpa [List.length_eq_zero] using h2
    cases hf : f.Matches m.Info.Tags
    · simp [hnot, hlen, hf]
    · simp [hnot, hlen, hf]

/-- Witness for `shouldDelete_decision_order` at a concrete manifest: an
untagged manifest uploaded at time 0 with `since = 1` is deleted. -/
theorem shouldDelete_decision_order_witness :
    shouldDelete ⟨"r", "d", ⟨[], 0, 0⟩⟩ 1 .TagFilterNull = true :=
  (shouldDelete_decision_order ⟨"r", "d", ⟨[], 0, 0⟩⟩ 1 .TagFilterNull).2.2.1
    (by decide) rfl

/-- C6: `Null` rejects every tag list; `Any(r)` accepts exactly the lists
with at least one tag matching `r` (hence rejects the empty list); `All(r)`
accepts exactly the lists all of whose tags match `r` (hence vacuously
accepts the empty list). -/
theorem tagFilter_matches_semantics (r : Regex) (ts : List String) :
    TagFilter.Matches .TagFilterNull ts = false
    ∧ (TagFilter.Matches (.TagFilterAny (some r)) ts = true ↔ ∃ t ∈ ts, r t = true)
    ∧ TagFilter.Matches (.TagFilterAny (some r)) [] = false
    ∧ (TagFilter.Matches (.TagFilterAll (some r)) ts = true ↔ ∀ t ∈ ts, r t = true)
    ∧ TagFilter.Matches (.TagFilterAll (some r)) [] = true := by
  refine ⟨rfl, ?_, rfl, ?_, rfl⟩
  · simp [TagFilter.Matches, List.any_eq_true]
  · simp [TagFilter.Matches, List.all_eq_true]

/-- C3 (amended): the `sort.Slice` comparator of `Clean` holds between `a`
and `b` exactly as the specification describes it; but the relation is not
a total order: it is not transitive once a prehistoric creation time mixes
with distinct modern creation times. -/
theorem manifestLess_characterization :
    (∀ a b : Manifest, manifestLess a b = true ↔ manifestLessSpec a b)
    ∧ (∃ a b c : Manifest, manifestLess a b = true ∧ manifestLess b c = true
        ∧ manifestLess a c = false) := by
  constructor
  · intro a b
    unfold manifestLess manifestLessSpec
    split
    case isTrue h => simp only [decide_eq_true_eq]; omega
    case isFalse h => simp only [decide_eq_true_eq]; omega
  · exact ⟨⟨"", "", ⟨[], dockerExistence + 2, 10⟩⟩,
      ⟨"", "", ⟨[], 0, 5⟩⟩,
      ⟨"", "", ⟨[], dockerExistence + 5, 1⟩⟩, by decide, by decide, by decide⟩

/-- Counterexample to C3 as stated: the comparator is not a total order.
With `a` created just after the Docker epoch and uploaded at 10, `b`
created prehistorically and uploaded at 5, and `c` created after `a` and
uploaded at 1, we get `a < b` and `b < c` but not `a < c`, so transitivity
fails. -/
theorem manifestLess_not_transitive :
    manifestLess ⟨"", "", ⟨[], 1363737600000000002, 10⟩⟩ ⟨"", "", ⟨[], 0, 5⟩⟩ = true
    ∧ manifestLess ⟨"", "", ⟨[], 0, 5⟩⟩ ⟨"", "", ⟨[], 1363737600000000005, 1⟩⟩ = true
    ∧ manifestLess ⟨"", "", ⟨[], 1363737600000000002, 10⟩⟩
        ⟨"", "", ⟨[], 1363737600000000005, 1⟩⟩ = false := by
  decide

/-- C7: with the `first` pattern left empty (the claim mentions only the
`any` and `all` patterns), `BuildTagFilter` errors if both patterns are
given; when both compile, it errors exactly when both are non-empty; both
empty yields the Null variant; exactly one non-empty yields the
corresponding compiled variant; and regex compilation errors are surfaced
to the caller. -/
theorem buildTagFilter_mutual_exclusion (compile : String → Except String Regex)
    (a b : String) :
    (a ≠ "" → b ≠ "" → ∃ e, BuildTagFilter compile "" a b = .error e)
    ∧ ((∀ s, ∃ r, compile s = .ok r) →
        ((∃ e, BuildTagFilter compile "" a b = .error e) ↔ (a ≠ "" ∧ b ≠ "")))
    ∧ (a = "" → b = "" → BuildTagFilter compile "" a b = .ok .TagFilterNull)
    ∧ (∀ ra, a ≠ "" → b = "" → compile a = .ok ra →
        BuildTagFilter compile "" a b = .ok (.TagFilterAny (some ra)))
    ∧ (∀ rb, a = "" → b ≠ "" → compile b = .ok rb →
        BuildTagFilter compile "" a b = .ok (.TagFilterAll (some rb)))
    ∧ (∀ e, a ≠ "" → b = "" → compile a = .error e →
        BuildTagFilter compile "" a b =
          .error ("failed to compile tag_filter_any regular expression: " ++ e))
    ∧ (∀ e, a = "" → b ≠ "" → compile b = .error e →
        BuildTagFilter compile "" a b =
          .error ("failed to compile tag_filter_all regular expression: " ++ e)) := by
  refine ⟨?_, ?_, ?_, ?_, ?_, ?_, ?_⟩
  · intro ha hb
    refine ⟨"only one tag filter type may be specified", ?_⟩
    simp [BuildTagFilter, ha, hb]
  · intro hcompile
    constructor
    · rintro ⟨e, he⟩
      by_cases ha : a = "" <;> by_cases hb : b = ""
      · simp [BuildTagFilter, ha, hb] at he
      · obtain ⟨rb, hrb⟩ := hcompile b
        simp [BuildTagFilter, ha, hb, hrb] at he
      · obtain ⟨ra, hra⟩ := hcompile a
        simp [BuildTagFilter, ha, hb, hra] at he
      · exact ⟨ha, hb⟩
    · rintro ⟨ha, hb⟩
      refine ⟨"only one tag filter type may be specified", ?_⟩
      simp [BuildTagFilter, ha, hb]
  · intro ha hb
    simp [BuildTagFilter, ha, hb]
  · intro ra ha hb hra
    simp [BuildTagFilter, ha, hb, hra]
  · intro rb ha hb hrb
    simp [BuildTagFilter, ha, hb, hrb]
  · intro e ha hb hra
    simp [BuildTagFilter, ha, hb, hra]
  · intro e ha hb hrb
    simp [BuildTagFilter, ha, hb, hrb]

/-- Witness for `buildTagFilter_mutual_exclusion`: with an always-succeeding
compiler, the `any` pattern alone yields the Any variant, both patterns
yield an error, and no pattern yields the Null variant. -/
theorem buildTagFilter_mutual_exclusion_witness :
    BuildTagFilter (fun _ => .ok (fun _ => true)) "" "x" "" =
      .ok (.TagFilterAny (some (fun _ => true)))
    ∧ (∃ e, BuildTagFilter (fun _ => .ok (fun _ => true)) "" "x" "y" = .error e)
    ∧ BuildTagFilter (fun _ => .ok (fun _ => true)) "" "" "" = .ok .TagFilterNull :=
  ⟨(buildTagFilter_mutual_exclusion (fun _ => .ok (fun _ => true)) "x" "").2.2.2.1
      (fun _ => true) (by decide) rfl rfl,
   (buildTagFilter_mutual_exclusion (fun _ => .ok (fun _ => true)) "x" "y").1
      (by decide) (by decide),
   (buildTagFilter_mutual_exclusion (fun _ => .ok (fun _ => true)) "" "").2.2.1
      rfl rfl⟩

/-- C10: a pubsub request that decodes but carries empty message data gets
its `subscription/message_id` key inserted into the deduplication cache
before the 400 response; a later redelivery with the same key, even with
non-empty data, is answered 204 as already processed and never invokes the
cleaner. -/
theorem pubsub_empty_data_poisons_cache (cache : List String)
    (m m' : PubSubMessage)
    (hnew : cache.contains (m.subscription ++ "/" ++ m.messageId) = false)
    (hdata : m.data = [])
    (hsub : m'.subscription = m.subscription)
    (hid : m'.messageId = m.messageId) :
    pubSubHandler cache (some m) =
      (400, cache ++ [m.subscription ++ "/" ++ m.messageId], false)
    ∧ pubSubHandler (cache ++ [m.subscription ++ "/" ++ m.messageId]) (some m') =
      (204, cache ++ [m.subscription ++ "/" ++ m.messageId], false) := by
  have hkey : m'.subscription ++ "/" ++ m'.messageId
      = m.subscription ++ "/" ++ m.messageId := by rw [hsub, hid]
  constructor
  · have h1 : m.subscription ++ "/" ++ m.messageId ∉ cache := by
      simpa using hnew
    simp [pubSubHandler, h1, hdata]
  · have h2 : m'.subscription ++ "/" ++ m'.messageId
        ∈ cache ++ [m.subscription ++ "/" ++ m.messageId] := by
      rw [hkey]; simp
    simp [pubSubHandler, h2]

/-- Witness for `pubsub_empty_data_poisons_cache`: an empty-data message on
an empty cache returns 400 and stores the key; redelivery with data
returns 204 without invoking the cleaner. -/
theorem pubsub_empty_data_poisons_cache_witness :
    pubSubHandler [] (some ⟨"s", "1", []⟩) = (400, ["s/1"], false)
    ∧ pubSubHandler ["s/1"] (some ⟨"s", "1", [7]⟩) = (204, ["s/1"], false) :=
  pubsub_empty_data_poisons_cache [] ⟨"s", "1", []⟩ ⟨"s", "1", [7]⟩
    (by decide) rfl rfl rfl

end GcrCleaner

namespace GcrCleaner

/-- Helper for C2: running the selection loop from any state whose
`keepCount` is within budget protects the next `(keep - keepCount)`
candidates and schedules the digests of all remaining candidates. -/
theorem selectStep_fold_spec (since keep : Int) (f : TagFilter) :
    ∀ (ms : List Manifest) (s : SelectState), s.keepCount ≤ keep →
      (ms.foldl (selectStep since keep f) s).kept
          = s.kept ++ (ms.filter (fun m => shouldDelete m since f)).take
              (keep - s.keepCount).toNat
      ∧ (ms.foldl (selectStep since keep f) s).digestsToDelete
          = s.digestsToDelete
            ++ ((ms.filter (fun m => shouldDelete m since f)).drop
              (keep - s.keepCount).toNat).map Manifest.Digest := by
  intro ms
  induction ms with
  | nil => intro s _; simp
  | cons m rest ih =>
    intro s hs
    by_cases hsd : shouldDelete m since f = true
    · by_cases hk : s.keepCount < keep
      · have hstep : selectStep since keep f s m
            = { s with keepCount := s.keepCount + 1, kept := s.kept ++ [m] } := by
          simp [selectStep, hsd, hk]
        have hn : (keep - s.keepCount).toNat = (keep - (s.keepCount + 1)).toNat + 1 := by
          omega
        obtain ⟨ih1, ih2⟩ :=
          ih { s with keepCount := s.keepCount + 1, kept := s.kept ++ [m] }
            (by show s.keepCount + 1 ≤ keep; omega)
        constructor
        · rw [List.foldl_cons, hstep, ih1]
          simp [List.filter_cons, hsd, hn, List.append_assoc]
        · rw [List.foldl_cons, hstep, ih2]
          simp [List.filter_cons, hsd, hn]
      · have hstep : selectStep since keep f s m
            = { s with digestsToDelete := s.digestsToDelete ++ [m.Digest],
                       tagsToDelete := s.tagsToDelete ++ m.Info.Tags } := by
          simp [selectStep, hsd, hk]
        have hn : (keep - s.keepCount).toNat = 0 := by omega
        obtain ⟨ih1, ih2⟩ :=
          ih { s with digestsToDelete := s.digestsToDelete ++ [m.Digest],
                      tagsToDelete := s.tagsToDelete ++ m.Info.Tags } hs
        constructor
        · rw [List.foldl_cons, hstep, ih1]
          simp [List.filter_cons, hsd, hn]
        · rw [List.foldl_cons, hstep, ih2]
          simp [List.filter_cons, hsd, hn, List.append_assoc]
    · have hstep : selectStep since keep f s m = s := by
        simp [selectStep, hsd]
      obtain ⟨ih1, ih2⟩ := ih s hs
      constructor
      · rw [List.foldl_cons, hstep, ih1]
        simp [List.filter_cons, hsd]
      · rw [List.foldl_cons, hstep, ih2]
        simp [List.filter_cons, hsd]

/-- C2: for a non-negative keep budget, the selection step of `Clean`
protects exactly the first `min(keep, number of candidates)` manifests, in
list order, among those `shouldDelete` accepts (rejected manifests do not
consume the budget), and schedules every remaining candidate's digest for
deletion. -/
theorem clean_selection_spec (manifests : List Manifest) (since keep : Int)
    (f : TagFilter) (hkeep : 0 ≤ keep) :
    (selectManifests manifests since keep f).kept
      = (manifests.filter (fun m => shouldDelete m since f)).take keep.toNat
    ∧ (selectManifests manifests since keep f).digestsToDelete
      = ((manifests.filter (fun m => shouldDelete m since f)).drop keep.toNat).map
          Manifest.Digest
    ∧ (selectManifests manifests since keep f).kept.length
      = min keep.toNat (manifests.filter (fun m => shouldDelete m since f)).length := by
  obtain ⟨h1, h2⟩ := selectStep_fold_spec since keep f manifests ⟨0, [], [], []⟩ hkeep
  have hz : (keep - (0 : Int)).toNat = keep.toNat := by omega
  refine ⟨?_, ?_, ?_⟩
  · simpa [selectManifests, hz] using h1
  · simpa [selectManifests, hz] using h2
  · have : (selectManifests manifests since keep f).kept
        = (manifests.filter (fun m => shouldDelete m since f)).take keep.toNat := by
      simpa [selectManifests, hz] using h1
    rw [this, List.length_take]

/-- Witness for `clean_selection_spec`: with `since = 10` and `keep = 1`,
a too-new manifest is skipped without consuming the budget, the first old
untagged manifest is protected, and the remaining two digests are
scheduled. -/
theorem clean_selection_spec_witness :
    (selectManifests
        [⟨"r", "d1", ⟨[], 0, 20⟩⟩, ⟨"r", "d2", ⟨[], 0, 0⟩⟩,
         ⟨"r", "d3", ⟨[], 0, 0⟩⟩, ⟨"r", "d4", ⟨[], 0, 0⟩⟩]
        10 1 .TagFilterNull).kept = [⟨"r", "d2", ⟨[], 0, 0⟩⟩]
    ∧ (selectManifests
        [⟨"r", "d1", ⟨[], 0, 20⟩⟩, ⟨"r", "d2", ⟨[], 0, 0⟩⟩,
         ⟨"r", "d3", ⟨[], 0, 0⟩⟩, ⟨"r", "d4", ⟨[], 0, 0⟩⟩]
        10 1 .TagFilterNull).digestsToDelete = ["d3", "d4"] := by
  have h := clean_selection_spec
    [⟨"r", "d1", ⟨[], 0, 20⟩⟩, ⟨"r", "d2", ⟨[], 0, 0⟩⟩,
     ⟨"r", "d3", ⟨[], 0, 0⟩⟩, ⟨"r", "d4", ⟨[], 0, 0⟩⟩]
    10 1 .TagFilterNull (by decide)
  exact ⟨h.1.trans (by decide), h.2.1.trans (by decide)⟩

end GcrCleaner

namespace GcrCleaner

/-- Helper for C8: the materialization fold preserves the length of the
accumulator vector. -/
theorem materialize_fold_length {α : Type} (rs : List (Nat × α)) :
    ∀ acc : List (Option α),
      (rs.foldl (fun acc p => acc.set p.1 (some p.2)) acc).length = acc.length := by
  induction rs with
  | nil => intro acc; rfl
  | cons p rest ih =>
    intro acc
    rw [List.foldl_cons, ih]
    simp

/-- Helper for C8: positions never written by the fold keep their
accumulator value. -/
theorem materialize_fold_get_notmem {α : Type} (rs : List (Nat × α)) :
    ∀ (acc : List (Option α)) (j : Nat), j ∉ rs.map Prod.fst →
      (rs.foldl (fun acc p => acc.set p.1 (some p.2)) acc)[j]? = acc[j]? := by
  induction rs with
  | nil => intro acc j _; rfl
  | cons p rest ih =>
    intro acc j hj
    simp only [List.map_cons, List.mem_cons] at hj
    push_neg at hj
    rw [List.foldl_cons, ih _ j hj.2, List.getElem?_set_ne (Ne.symm hj.1)]

/-- Helper for C8: when the written indices are distinct, each written
position ends up holding its value. -/
theorem materialize_fold_get_mem {α : Type} (rs : List (Nat × α)) :
    ∀ (acc : List (Option α)) (j : Nat) (v : α), (rs.map Prod.fst).Nodup →
      (j, v) ∈ rs → j < acc.length →
      (rs.foldl (fun acc p => acc.set p.1 (some p.2)) acc)[j]? = some (some v) := by
  induction rs with
  | nil => intro acc j v _ h _; simp at h
  | cons p rest ih =>
    intro acc j v hnd hmem hj
    simp only [List.map_cons, List.nodup_cons] at hnd
    rcases List.mem_cons.1 hmem with heq | hmem2
    · subst heq
      rw [List.foldl_cons]
      have hnot : j ∉ rest.map Prod.fst := by
        simpa using hnd.1
      rw [materialize_fold_get_notmem rest _ j hnot]
      rw [List.getElem?_set_self']
      simp [hj]
    · rw [List.foldl_cons]
      exact ih _ j v hnd.2 hmem2 (by simpa using hj)

/-- Helper for C8: materializing any completion-order permutation of the
indexed submission results yields exactly the submission values in
enqueue order. -/
theorem materializeResults_of_perm {α : Type} (rs : List (Nat × α)) (fs : List α)
    (hperm : rs.Perm fs.enum) :
    materializeResults rs = fs.map some := by
  have hlen : rs.length = fs.length := by
    simpa using hperm.length_eq
  have hnd : (rs.map Prod.fst).Nodup := by
    have h1 : (rs.map Prod.fst).Perm (fs.enum.map Prod.fst) := hperm.map Prod.fst
    rw [List.enum_map_fst] at h1
    exact (h1.nodup_iff).2 (List.nodup_range _)
  apply List.ext_getElem?
  intro j
  by_cases hj : j < fs.length
  · have hmem : (j, fs[j]) ∈ rs := by
      apply hperm.mem_iff.2
      simp [List.mem_enum_iff_getElem?]
    have hjlen : j < (List.replicate rs.length (none : Option α)).length := by
      simpa [hlen] using hj
    rw [materializeResults, materialize_fold_get_mem rs _ j _ hnd hmem hjlen]
    simp [hj]
  · have h1 : (materializeResults rs).length = fs.length := by
      rw [materializeResults, materialize_fold_length]
      simpa using hlen
    rw [List.getElem?_eq_none (by omega), List.getElem?_eq_none (by simpa using hj)]

/-- C8: for a pool whose completion-ordered results are any permutation of
the indexed results of the accepted submissions, the first `Done` call
returns the vector of submission results in enqueue order (so its length
is the number of accepted submissions and position `i` holds the i-th
submission's result, independent of completion order); afterwards the pool
is stopped, and every further `Do`, `Wait` or `Done` returns the stopped
sentinel. -/
theorem worker_done_ordered {α : Type} (p : WorkerPool α) (fs : List α)
    (hstop : p.stopped = false) (hperm : p.results.Perm fs.enum) :
    doneOp p = .ok ({ p with stopped := true }, fs.map some)
    ∧ (fs.map some).length = fs.length
    ∧ (∀ i : Nat, (fs.map some)[i]? = (fs[i]?).map some)
    ∧ doOp { p with stopped := true } = (.error .stopped : Except PoolErr (WorkerPool α × Nat))
    ∧ waitOp { p with stopped := true } = (.error .stopped : Except PoolErr Unit)
    ∧ doneOp { p with stopped := true }
        = (.error .stopped : Except PoolErr (WorkerPool α × List (Option α))) := by
  refine ⟨?_, by simp, ?_, ?_, ?_, ?_⟩
  · simp [doneOp, hstop, materializeResults_of_perm p.results fs hperm]
  · intro i
    simp [List.getElem?_map]
  · simp [doOp]
  · simp [waitOp]
  · simp [doneOp]

/-- Witness for `worker_done_ordered`: two submissions whose completions
arrive in reverse order still materialize as `[some 10, some 20]`, and the
stopped pool rejects every further operation. -/
theorem worker_done_ordered_witness :
    doneOp (⟨2, [(1, 20), (0, 10)], false⟩ : WorkerPool Nat)
      = .ok (⟨2, [(1, 20), (0, 10)], true⟩, [some 10, some 20])
    ∧ doOp (⟨2, [(1, 20), (0, 10)], true⟩ : WorkerPool Nat) = .error .stopped
    ∧ doneOp (⟨2, [(1, 20), (0, 10)], true⟩ : WorkerPool Nat) = .error .stopped := by
  have h := worker_done_ordered (⟨2, [(1, 20), (0, 10)], false⟩ : WorkerPool Nat)
    [10, 20] rfl (by decide)
  exact ⟨h.1, h.2.2.2.1, h.2.2.2.2.2⟩

end GcrCleaner

namespace GcrCleaner

/-- Helper: the result-gathering loop splits into the non-empty error-free
values and the errors, in order. -/
theorem gatherResults_fold_eq (rs : List WResult) :
    ∀ acc : List String × List String,
      rs.foldl
        (fun acc r =>
          match r.error with
          | some e => (acc.1, acc.2 ++ [e])
          | none => if r.value ≠ "" then (acc.1 ++ [r.value], acc.2) else acc)
        acc
      = (acc.1 ++ rs.filterMap
            (fun r => if r.error = none ∧ r.value ≠ "" then some r.value else none),
         acc.2 ++ rs.filterMap (fun r => r.error)) := by
  induction rs with
  | nil => intro acc; simp
  | cons r rest ih =>
    intro acc
    rw [List.foldl_cons]
    cases he : r.error with
    | some e =>
      simp only [he]
      rw [ih]
      simp [List.filterMap_cons, he]
    | none =>
      by_cases hv : r.value = ""
      · simp only [he, hv, ne_eq, not_true_eq_false, if_neg, ite_false]
        rw [ih]
        simp [List.filterMap_cons, he, hv]
      · simp only [he, ne_eq, hv, not_false_eq_true, if_pos, ite_true]
        rw [ih]
        simp [List.filterMap_cons, he, hv]

/-- Helper: the gathered pair as filterMap projections. -/
theorem gatherResults_eq (rs : List WResult) :
    gatherResults rs
      = (rs.filterMap
          (fun r => if r.error = none ∧ r.value ≠ "" then some r.value else none),
         rs.filterMap (fun r => r.error)) := by
  rw [gatherResults, gatherResults_fold_eq rs ([], [])]
  simp

/-- Helper: membership in the gathered deleted list. -/
theorem mem_gatherResults_deleted (rs : List WResult) (x : String) :
    x ∈ (gatherResults rs).1 ↔ ∃ r ∈ rs, r.error = none ∧ r.value ≠ "" ∧ r.value = x := by
  rw [gatherResults_eq]
  simp only [List.mem_filterMap]
  constructor
  · rintro ⟨r, hr, hfx⟩
    by_cases h : r.error = none ∧ r.value ≠ ""
    · rw [if_pos h] at hfx
      exact ⟨r, hr, h.1, h.2, Option.some_injective _ hfx⟩
    · rw [if_neg h] at hfx
      exact absurd hfx (by simp)
  · rintro ⟨r, hr, he, hv, hx⟩
    exact ⟨r, hr, by rw [if_pos ⟨he, hv⟩, hx]⟩

/-- Helper: no errors are gathered when every result is error-free. -/
theorem gatherResults_errs_nil (rs : List WResult)
    (h : ∀ r ∈ rs, r.error = none) : (gatherResults rs).2 = [] := by
  rw [gatherResults_eq]
  simpa using h

/-- Helper for C4: a digest-deletion task result with a non-empty value
comes from a successful transport call on that digest at that pass. -/
theorem runDigestPass_value_ok (oracle : String → Nat → DelOutcome) (p : Nat)
    (l : List String) (r : WResult) (hr : r ∈ (runDigestPass false oracle p l).1)
    (hv : r.value ≠ "") : oracle r.value p = DelOutcome.ok := by
  obtain ⟨d, _, heq⟩ := List.mem_map.1 hr
  cases hoc : oracle d p with
  | ok =>
    rw [← heq]
    simp [digestTaskResult, hoc]
  | dangling =>
    rw [← heq] at hv
    simp [digestTaskResult, hoc] at hv
  | fail e =>
    rw [← heq] at hv
    simp [digestTaskResult, hoc] at hv

/-- Helper for C4: a digest-deletion task result carries an error only if
the transport reported a non-dangling failure. -/
theorem runDigestPass_error_none (oracle : String → Nat → DelOutcome) (p : Nat)
    (l : List String) (r : WResult) (hr : r ∈ (runDigestPass false oracle p l).1)
    (hnf : ∀ d2 n e, oracle d2 n ≠ DelOutcome.fail e) : r.error = none := by
  obtain ⟨d, _, heq⟩ := List.mem_map.1 hr
  cases hoc : oracle d p with
  | ok => rw [← heq]; simp [digestTaskResult, hoc]
  | dangling => rw [← heq]; simp [digestTaskResult, hoc]
  | fail e => exact absurd hoc (hnf d p e)

/-- Helper for C4: every result of the retry loop with a non-empty value
comes from a successful transport call, and is error-free when the oracle
never fails terminally. -/
theorem runRetryLoop_results_spec (oracle : String → Nat → DelOutcome) :
    ∀ (fuel pass : Nat) (l : List String) (r : WResult),
      r ∈ (runRetryLoop false oracle fuel pass l).1 →
      (r.value ≠ "" → ∃ k, oracle r.value k = DelOutcome.ok)
      ∧ ((∀ d2 n e, oracle d2 n ≠ DelOutcome.fail e) → r.error = none) := by
  intro fuel
  induction fuel with
  | zero => intro pass l r hr; simp [runRetryLoop] at hr
  | succ fuel ih =>
    intro pass l r hr
    rw [runRetryLoop] at hr
    by_cases hemp : l.isEmpty
    · rw [if_pos hemp] at hr
      simp at hr
    · rw [if_neg hemp] at hr
      simp only [List.mem_append] at hr
      rcases hr with hr | hr
      · exact ⟨fun hv => ⟨pass, runDigestPass_value_ok oracle pass l r hr hv⟩,
          fun hnf => runDigestPass_error_none oracle pass l r hr hnf⟩
      · exact ih (pass + 1) _ r hr

/-- Helper for C4: a digest that keeps returning the dangling marker is
re-attempted in every pass the retry loop runs. -/
theorem runRetryLoop_trace_mem (oracle : String → Nat → DelOutcome) (d : String)
    (hdang : ∀ n, oracle d n = DelOutcome.dangling) :
    ∀ (fuel pass : Nat) (l : List String), d ∈ l →
      ∀ k, pass ≤ k → k < pass + fuel →
      Attempt.mk d k true ∈ (runRetryLoop false oracle fuel pass l).2.2 := by
  intro fuel
  induction fuel with
  | zero => intro pass l _ k h1 h2; omega
  | succ fuel ih =>
    intro pass l hd k h1 h2
    rw [runRetryLoop]
    rw [if_neg (by simp [List.isEmpty_iff]; exact List.ne_nil_of_mem hd)]
    simp only [List.mem_append]
    by_cases hk : k = pass
    · left
      subst hk
      exact List.mem_map.2 ⟨d, hd, rfl⟩
    · right
      apply ih (pass + 1) _ _ k (by omega) (by omega)
      have hmem : d ∈ List.filter (fun x => decide (oracle x pass = DelOutcome.dangling)) l :=
        List.mem_filter.2 ⟨hd, by simp [hdang pass]⟩
      simpa [runDigestPass] using hmem

/-- Helper for C4: every attempt in the retry loop's trace happens at a
pass inside the fuel window. -/
theorem runRetryLoop_trace_bound (oracle : String → Nat → DelOutcome) :
    ∀ (fuel pass : Nat) (l : List String) (a : Attempt),
      a ∈ (runRetryLoop false oracle fuel pass l).2.2 →
      pass ≤ a.pass ∧ a.pass < pass + fuel := by
  intro fuel
  induction fuel with
  | zero => intro pass l a ha; simp [runRetryLoop] at ha
  | succ fuel ih =>
    intro pass l a ha
    rw [runRetryLoop] at ha
    by_cases hemp : l.isEmpty
    · rw [if_pos hemp] at ha
      simp at ha
    · rw [if_neg hemp] at ha
      simp only [List.mem_append] at ha
      rcases ha with ha | ha
      · obtain ⟨d, _, heq⟩ := List.mem_map.1 ha
        rw [← heq]
        exact ⟨Nat.le_refl _, by show pass < pass + (fuel + 1); omega⟩
      · obtain ⟨hb1, hb2⟩ := ih (pass + 1) _ a ha
        omega

/-- Helper for C4: a digest that keeps returning the dangling marker stays
on the retry list through every pass and remains when fuel runs out. -/
theorem runRetryLoop_remaining_mem (oracle : String → Nat → DelOutcome) (d : String)
    (hdang : ∀ n, oracle d n = DelOutcome.dangling) :
    ∀ (fuel pass : Nat) (l : List String), d ∈ l →
      d ∈ (runRetryLoop false oracle fuel pass l).2.1 := by
  intro fuel
  induction fuel with
  | zero =>
    intro pass l hd
    rw [runRetryLoop]
    exact hd
  | succ fuel ih =>
    intro pass l hd
    rw [runRetryLoop]
    rw [if_neg (by simp [List.isEmpty_iff]; exact List.ne_nil_of_mem hd)]
    apply ih (pass + 1)
    have hmem : d ∈ List.filter (fun x => decide (oracle x pass = DelOutcome.dangling)) l :=
      List.mem_filter.2 ⟨hd, by simp [hdang pass]⟩
    simpa [runDigestPass] using hmem

/-- C4 (amended): a dangling-parent marker on a digest delete is not
terminal: the digest is re-attempted in up to 3 additional passes (and in
no later pass), with the retry list rebuilt each pass; but if the marker
persists through every pass, the digest is dropped silently: it stays on
the leftover retry list, is not reported as deleted, and — as long as no
task fails terminally — the `Clean` call reports no error at all. -/
theorem digest_retry_dangling (oracle : String → Nat → DelOutcome)
    (digests : List String) (d : String) (hd : d ∈ digests)
    (hdang : ∀ n, oracle d n = DelOutcome.dangling) :
    (∀ k, k ≤ 3 → Attempt.mk d k true ∈ (runDigestPhase false oracle digests).trace)
    ∧ (∀ a ∈ (runDigestPhase false oracle digests).trace, a.pass ≤ 3)
    ∧ d ∈ (runDigestPhase false oracle digests).remaining
    ∧ d ∉ (gatherResults (runDigestPhase false oracle digests).results).1
    ∧ ((∀ d2 n e, oracle d2 n ≠ DelOutcome.fail e) →
        (gatherResults (runDigestPhase false oracle digests).results).2 = []) := by
  have hretry0 : d ∈ (runDigestPass false oracle 0 digests).2.1 := by
    have hmem : d ∈ List.filter (fun x => decide (oracle x 0 = DelOutcome.dangling)) digests :=
      List.mem_filter.2 ⟨hd, by simp [hdang 0]⟩
    simpa [runDigestPass] using hmem
  refine ⟨?_, ?_, ?_, ?_, ?_⟩
  · intro k hk
    simp only [runDigestPhase, List.mem_append]
    by_cases hk0 : k = 0
    · left
      subst hk0
      exact List.mem_map.2 ⟨d, hd, rfl⟩
    · right
      exact runRetryLoop_trace_mem oracle d hdang 3 1 _ hretry0 k (by omega) (by omega)
  · intro a ha
    simp only [runDigestPhase, List.mem_append] at ha
    rcases ha with ha | ha
    · obtain ⟨d2, _, heq⟩ := List.mem_map.1 ha
      rw [← heq]
      show (0 : Nat) ≤ 3
      omega
    · obtain ⟨hb1, hb2⟩ := runRetryLoop_trace_bound oracle 3 1 _ a ha
      omega
  · exact runRetryLoop_remaining_mem oracle d hdang 3 1 _ hretry0
  · intro hmem
    obtain ⟨r, hr, he, hv, hx⟩ := (mem_gatherResults_deleted _ d).1 hmem
    simp only [runDigestPhase, List.mem_append] at hr
    rcases hr with hr | hr
    · have := runDigestPass_value_ok oracle 0 digests r hr hv
      rw [hx] at this
      rw [hdang 0] at this
      exact absurd this (by simp)
    · obtain ⟨k, hk⟩ := ((runRetryLoop_results_spec oracle 3 1 _ r hr).1 hv)
      rw [hx] at hk
      rw [hdang k] at hk
      exact absurd hk (by simp)
  · intro hnf
    apply gatherResults_errs_nil
    intro r hr
    simp only [runDigestPhase, List.mem_append] at hr
    rcases hr with hr | hr
    · exact runDigestPass_error_none oracle 0 digests r hr hnf
    · exact (runRetryLoop_results_spec oracle 3 1 _ r hr).2 hnf

/-- Witness for `digest_retry_dangling` at a concrete persistently-dangling
digest. -/
theorem digest_retry_dangling_witness :
    Attempt.mk "d" 3 true
        ∈ (runDigestPhase false (fun _ _ => DelOutcome.dangling) ["d"]).trace
    ∧ "d" ∈ (runDigestPhase false (fun _ _ => DelOutcome.dangling) ["d"]).remaining
    ∧ (gatherResults
        (runDigestPhase false (fun _ _ => DelOutcome.dangling) ["d"]).results).2 = [] := by
  have h := digest_retry_dangling (fun _ _ => DelOutcome.dangling) ["d"] "d"
    (by decide) (fun _ => rfl)
  exact ⟨h.1 3 (by decide), h.2.2.1, h.2.2.2.2 (fun _ _ _ => by simp)⟩

/-- Counterexample to C4 as stated: a digest whose delete returns the
dangling-parent marker on the initial pass and on all 3 retry passes is
NOT reported as a terminal error of the `Clean` call — the final retry
list is simply abandoned, the gathered error list is empty, and the digest
is not reported as deleted either. -/
theorem digest_retry_exhaustion_silent :
    (runDigestPhase false (fun _ _ => DelOutcome.dangling) ["d"]).remaining = ["d"]
    ∧ (runDigestPhase false (fun _ _ => DelOutcome.dangling) ["d"]).trace.length = 4
    ∧ gatherResults
        (runDigestPhase false (fun _ _ => DelOutcome.dangling) ["d"]).results
      = ([], []) := by
  decide

end GcrCleaner

namespace GcrCleaner

/-- Helper for C5: a digest-deletion task of the `workerpool`-based variant
started while the shared error map is non-empty returns immediately
without a transport call and without touching the state. -/
theorem oldDigestTask_short_circuit (dryRun : Bool) (digest : String)
    (outcome : Option String) (s : OldState) (h : s.errs ≠ []) :
    oldDigestTask dryRun digest outcome s = (s, false) := by
  simp [oldDigestTask, h]

/-- Helper for C5: once the shared error map is non-empty, the rest of the
task sequence leaves the state unchanged and issues no transport call. -/
theorem runOld_fold_stuck (dryRun : Bool) :
    ∀ (ts : List (String × Option String)) (s : OldState) (fl : List Bool),
      s.errs ≠ [] →
      ts.foldl
        (fun acc t =>
          ((oldDigestTask dryRun t.1 t.2 acc.1).1,
           acc.2 ++ [(oldDigestTask dryRun t.1 t.2 acc.1).2]))
        (s, fl)
      = (s, fl ++ List.replicate ts.length false) := by
  intro ts
  induction ts with
  | nil => intro s fl _; simp
  | cons t rest ih =>
    intro s fl hs
    rw [List.foldl_cons, oldDigestTask_short_circuit dryRun t.1 t.2 s hs]
    rw [ih s (fl ++ [false]) hs]
    simp [List.replicate_succ]

/-- C5 (amended): the cross-task first-error guard exists in the
`workerpool`-based `Clean` variant: once some digest-deletion task has
recorded an error in the shared error map, every subsequently started
digest-deletion task short-circuits — it issues no transport delete call
and leaves the shared state unchanged.  (The `worker`-based `Clean` has no
such guard; see the counterexample.) -/
theorem old_digest_first_error_short_circuit (dryRun : Bool)
    (ts1 ts2 : List (String × Option String)) (s0 : OldState)
    (herr : (runOldDigestPhase dryRun ts1 s0).1.errs ≠ []) :
    (runOldDigestPhase dryRun (ts1 ++ ts2) s0).1 = (runOldDigestPhase dryRun ts1 s0).1
    ∧ (runOldDigestPhase dryRun (ts1 ++ ts2) s0).2
      = (runOldDigestPhase dryRun ts1 s0).2 ++ List.replicate ts2.length false := by
  have key := runOld_fold_stuck dryRun ts2 (runOldDigestPhase dryRun ts1 s0).1
    (runOldDigestPhase dryRun ts1 s0).2 herr
  have h1 : runOldDigestPhase dryRun (ts1 ++ ts2) s0
      = ts2.foldl
          (fun acc t =>
            ((oldDigestTask dryRun t.1 t.2 acc.1).1,
             acc.2 ++ [(oldDigestTask dryRun t.1 t.2 acc.1).2]))
          ((runOldDigestPhase dryRun ts1 s0).1, (runOldDigestPhase dryRun ts1 s0).2) := by
    simp only [runOldDigestPhase]
    rw [List.foldl_append]
  rw [h1, key]
  exact ⟨rfl, rfl⟩

/-- Witness for `old_digest_first_error_short_circuit`: after a first task
fails with cause "boom", a second task is skipped: no transport flag and
no state change. -/
theorem old_digest_first_error_short_circuit_witness :
    (runOldDigestPhase false ([("d1", some "boom")] ++ [("d2", none)]) ⟨[], []⟩).1
      = (runOldDigestPhase false [("d1", some "boom")] ⟨[], []⟩).1
    ∧ (runOldDigestPhase false ([("d1", some "boom")] ++ [("d2", none)]) ⟨[], []⟩).2
      = (runOldDigestPhase false [("d1", some "boom")] ⟨[], []⟩).2
        ++ List.replicate 1 false :=
  old_digest_first_error_short_circuit false [("d1", some "boom")] [("d2", none)]
    ⟨[], []⟩ (by decide)

/-- Counterexample to C5 as stated: in the `worker`-based `Clean`, a digest
task that starts after another digest task has already failed terminally
still issues its transport delete call — the first result is the terminal
error of the first task, yet the second attempt's transport flag is true. -/
theorem modern_digest_no_short_circuit :
    (runDigestPhase false
        (fun d2 _ => if d2 = "d1" then DelOutcome.fail "boom" else DelOutcome.ok)
        ["d1", "d2"]).results
      = [⟨"", some "failed to delete digest d1: boom"⟩, ⟨"d2", none⟩]
    ∧ (runDigestPhase false
        (fun d2 _ => if d2 = "d1" then DelOutcome.fail "boom" else DelOutcome.ok)
        ["d1", "d2"]).trace
      = [⟨"d1", 0, true⟩, ⟨"d2", 0, true⟩] := by
  decide

/-- C9 (amended): the deleted-identifier list computed by `Clean`'s result
gathering is sorted lexicographically; and it is duplicate-free provided
the gathered identifiers are pairwise distinct (the sort itself never
removes duplicates). -/
theorem clean_deleted_sorted_nodup (rs : List WResult) :
    (sortStrings (gatherResults rs).1).Pairwise (fun a b => a.data ≤ b.data)
    ∧ ((gatherResults rs).1.Nodup → (sortStrings (gatherResults rs).1).Nodup) := by
  constructor
  · have htrans : ∀ a b c : String, decide (a.data ≤ b.data) = true →
        decide (b.data ≤ c.data) = true → decide (a.data ≤ c.data) = true := by
      intro a b c hab hbc
      simp only [decide_eq_true_eq] at hab hbc ⊢
      exact le_trans hab hbc
    have htotal : ∀ a b : String,
        (decide (a.data ≤ b.data) || decide (b.data ≤ a.data)) = true := by
      intro a b
      simp only [Bool.or_eq_true, decide_eq_true_eq]
      exact le_total a.data b.data
    have h := List.sorted_mergeSort htrans htotal (gatherResults rs).1
    rw [sortStrings]
    exact h.imp (fun hab => by simpa using hab)
  · intro hnd
    rw [sortStrings]
    exact ((List.mergeSort_perm (gatherResults rs).1 _).nodup_iff).2 hnd

/-- Witness for `clean_deleted_sorted_nodup` at two concrete error-free
results delivered out of order. -/
theorem clean_deleted_sorted_nodup_witness :
    (sortStrings (gatherResults [⟨"b", none⟩, ⟨"a", none⟩]).1).Pairwise
      (fun a b => a.data ≤ b.data)
    ∧ (sortStrings (gatherResults [⟨"b", none⟩, ⟨"a", none⟩]).1).Nodup := by
  have h := clean_deleted_sorted_nodup [⟨"b", none⟩, ⟨"a", none⟩]
  exact ⟨h.1, h.2 (by decide)⟩

/-- Counterexample to C9 as stated: a successful dry-run `Clean` on a
manifest that carries the tag "a" twice reports the deleted list
`["a", "a", "sha256:x"]`, which contains a duplicate — the gathered list is
sorted but never deduplicated. -/
theorem clean_deleted_duplicates :
    cleanDeletedDryRun [⟨"r", "sha256:x", ⟨["a", "a"], 0, 0⟩⟩] 1 0
        (.TagFilterAny (some (fun _ => true))) = sortStrings ["a", "a", "sha256:x"]
    ∧ ¬ (cleanDeletedDryRun [⟨"r", "sha256:x", ⟨["a", "a"], 0, 0⟩⟩] 1 0
        (.TagFilterAny (some (fun _ => true)))).Nodup := by
  have h1 : cleanDeletedDryRun [⟨"r", "sha256:x", ⟨["a", "a"], 0, 0⟩⟩] 1 0
      (.TagFilterAny (some (fun _ => true))) = sortStrings ["a", "a", "sha256:x"] := by
    simp only [cleanDeletedDryRun]
    exact congrArg sortStrings (by decide)
  refine ⟨h1, ?_⟩
  rw [h1, sortStrings]
  intro hnd
  have h2 := ((List.mergeSort_perm ["a", "a", "sha256:x"] _).nodup_iff).1 hnd
  exact absurd h2 (by decide)

end GcrCleaner
